import Mathlib

/-!
Verification of the reti transaction-orchestration and data-aggregation layer
(ui/src/api/contracts.ts) against its specification.

The definitions below are shallow embeddings of the TypeScript source.
JavaScript numbers holding microalgo amounts and timestamps are modelled as
naturals; JavaScript floating-point division that is not floored by the source
is modelled as exact division over the rationals.
-/

namespace Reti

/-! ### Fee computation (phase-2 fees of the two-phase operations)

Each state-mutating operation simulates its group first and derives the real
fee from `simulateResult.simulateResponse.txnGroups[0].appBudgetAdded`.
The five formulas below are transcribed from `addValidator`, `addStake`,
`removeStake`, `epochBalanceUpdate` and `claimTokens` in
ui/src/api/contracts.ts. -/

/-- Fee of `addValidator`: `1000 * Math.floor((appBudgetAdded + 699) / 700)`. -/
def feeAddValidator (appBudgetAdded : ℕ) : ℕ :=
  1000 * ((appBudgetAdded + 699) / 700)

/-- Fee of `removeStake`: `1000 * Math.floor((appBudgetAdded + 699) / 700)`. -/
def feeRemoveStake (appBudgetAdded : ℕ) : ℕ :=
  1000 * ((appBudgetAdded + 699) / 700)

/-- Fee of `claimTokens`: `1000 * Math.floor((appBudgetAdded + 699) / 700)`. -/
def feeClaimTokens (appBudgetAdded : ℕ) : ℕ :=
  1000 * ((appBudgetAdded + 699) / 700)

/-- Fee of `addStake`: `2000 + 1000 * (appBudgetAdded / 700)` with plain
JavaScript division (no flooring, no ceiling in the source). -/
def feeAddStake (appBudgetAdded : ℕ) : ℚ :=
  2000 + 1000 * ((appBudgetAdded : ℚ) / 700)

/-- Fee of `epochBalanceUpdate`: `3000 + 1000 * (appBudgetAdded / 700)` with plain
JavaScript division (no flooring, no ceiling in the source). -/
def feeEpochBalanceUpdate (appBudgetAdded : ℕ) : ℚ :=
  3000 + 1000 * ((appBudgetAdded : ℚ) / 700)

/-! ### Staker aggregation data model (ui/src/interfaces, ui/src/api/contracts.ts) -/

/-- The 3-tuple addressing one pool. -/
structure ValidatorPoolKey where
  validatorId : ℕ
  poolId : ℕ
  poolAppId : ℕ
deriving DecidableEq, Repr

/-- One staker position inside one pool, as decoded by `fetchStakerPoolData`. -/
structure StakedInfo where
  account : String
  balance : ℕ
  totalRewarded : ℕ
  rewardTokenBalance : ℕ
  entryTime : ℕ
deriving DecidableEq, Repr

/-- Record equation `StakerPoolData = StakedInfo + poolKey`. -/
structure StakerPoolData extends StakedInfo where
  poolKey : ValidatorPoolKey
deriving DecidableEq, Repr

/-- The per-validator aggregate built by `fetchStakerValidatorData`. -/
structure StakerValidatorData where
  validatorId : ℕ
  balance : ℕ
  totalRewarded : ℕ
  rewardTokenBalance : ℕ
  entryTime : ℕ
  pools : List StakerPoolData
deriving DecidableEq, Repr

/-- The validator id a pool record belongs to. -/
def StakerPoolData.vid (p : StakerPoolData) : ℕ := p.poolKey.validatorId

/-- The `else` branch of the reduce in `fetchStakerValidatorData`: the first
pool for a validator seeds a new aggregate. -/
def seedAggregate (pool : StakerPoolData) : StakerValidatorData :=
  { validatorId := pool.vid
    balance := pool.balance
    totalRewarded := pool.totalRewarded
    rewardTokenBalance := pool.rewardTokenBalance
    entryTime := pool.entryTime
    pools := [pool] }

/-- The `then` branch of the reduce: a further pool for an already-seen
validator updates the existing aggregate in place. -/
def accumulate (data : StakerValidatorData) (pool : StakerPoolData) : StakerValidatorData :=
  { data with
    balance := data.balance + pool.balance
    totalRewarded := data.totalRewarded + pool.totalRewarded
    rewardTokenBalance := data.rewardTokenBalance + pool.rewardTokenBalance
    entryTime := min data.entryTime pool.entryTime
    pools := data.pools ++ [pool] }

/-- One step of the reduce: `acc.find(data.validatorId === validatorId)`
updates the first matching aggregate in place, otherwise the new aggregate is
pushed at the end. -/
def addPool : List StakerValidatorData → StakerPoolData → List StakerValidatorData
  | [], pool => [seedAggregate pool]
  | d :: rest, pool =>
      if d.validatorId = pool.vid then accumulate d pool :: rest
      else d :: addPool rest pool

/-- The grouping reduce of `fetchStakerValidatorData`, folded over the pool
records in fetch order. -/
def stakerValidatorData (pools : List StakerPoolData) : List StakerValidatorData :=
  pools.foldl addPool []

/-- The entry time produced by folding `Math.min` over a pool list in order,
starting from the first record, exactly as the reduce updates `entryTime`. -/
def entryMin : List StakerPoolData → ℕ
  | [] => 0
  | q :: qs => (qs.map (·.entryTime)).foldl min q.entryTime

/-- Loop invariant of the grouping reduce: after processing the records in
`processed`, the accumulator holds one aggregate per distinct validator id,
each carrying exactly its records (in input order), summed balances and the
running minimum entry time. -/
def Represents (processed : List StakerPoolData) (acc : List StakerValidatorData) : Prop :=
  (acc.map (·.validatorId)).Nodup ∧
  (∀ d ∈ acc,
      d.pools = processed.filter (fun q => q.vid == d.validatorId) ∧
      d.pools ≠ [] ∧
      d.balance = (d.pools.map (·.balance)).sum ∧
      d.totalRewarded = (d.pools.map (·.totalRewarded)).sum ∧
      d.rewardTokenBalance = (d.pools.map (·.rewardTokenBalance)).sum ∧
      d.entryTime = entryMin d.pools) ∧
  (∀ q ∈ processed, q.vid ∈ acc.map (·.validatorId))

/-- Concrete pool record: 100 units staked in pool 1 of validator 7,
entry time 1000. -/
def examplePoolA : StakerPoolData :=
  { account := "STAKER", balance := 100, totalRewarded := 10,
    rewardTokenBalance := 1, entryTime := 1000, poolKey := ⟨7, 1, 1011⟩ }

/-- Concrete pool record: 50 units staked in pool 2 of validator 7,
entry time 2000. -/
def examplePoolB : StakerPoolData :=
  { account := "STAKER", balance := 50, totalRewarded := 5,
    rewardTokenBalance := 2, entryTime := 2000, poolKey := ⟨7, 2, 1012⟩ }

/-- The aggregate produced for validator 7 from `[examplePoolA, examplePoolB]`. -/
def exampleAggregate : StakerValidatorData :=
  { validatorId := 7, balance := 150, totalRewarded := 15, rewardTokenBalance := 3,
    entryTime := 1000, pools := [examplePoolA, examplePoolB] }

/-- The aggregate produced for validator 7 from `[examplePoolB, examplePoolA]`. -/
def exampleAggregateRev : StakerValidatorData :=
  { validatorId := 7, balance := 150, totalRewarded := 15, rewardTokenBalance := 3,
    entryTime := 1000, pools := [examplePoolB, examplePoolA] }

/-! ### fetchValidator (ui/src/api/contracts.ts)

`fetchValidator` issues five reads through `Promise.all` and decodes
`returns?.[0]` of each; a missing return value is modelled as `none`.  The raw
return types are opaque to this layer and stay abstract. -/

/-- The resolved values of the five concurrent reads issued by
`fetchValidator`: config, state, pool directory, token payout ratios and
node-pool assignment. -/
structure ValidatorReads (C S P R N : Type) where
  config : Option C
  state : Option S
  poolsInfo : Option P
  tokenPayoutRatios : Option R
  nodePoolAssignment : Option N

/-- The assembled Validator entity with all five sub-fields present. -/
structure Validator (C S P R N : Type) where
  config : C
  state : S
  poolsInfo : P
  tokenPayoutRatios : R
  nodePoolAssignment : N

/-- Modelled from the spec: `transformValidatorData` (ui/src/utils/contracts.ts,
a file of this repository not present under src/) packages the five raw reads
into the single logical Validator entity. -/
def transformValidatorData {C S P R N : Type} (c : C) (s : S) (p : P) (r : R) (n : N) :
    Validator C S P R N :=
  ⟨c, s, p, r, n⟩

/-- The error thrown by `fetchValidator` when any read resolves empty
(`ValidatorNotFoundError` in the source). -/
inductive FetchError where
  | validatorNotFound (validatorId : ℕ)
deriving DecidableEq, Repr

/-- Body of `fetchValidator`: if any of the five reads resolved empty, throw
`ValidatorNotFoundError`; otherwise transform the raw data into a Validator. -/
def fetchValidator {C S P R N : Type} (validatorId : ℕ)
    (reads : ValidatorReads C S P R N) : Except FetchError (Validator C S P R N) :=
  match reads.config, reads.state, reads.poolsInfo,
      reads.tokenPayoutRatios, reads.nodePoolAssignment with
  | some c, some s, some p, some r, some n => .ok (transformValidatorData c s p r n)
  | _, _, _, _, _ => .error (.validatorNotFound validatorId)

/-! ### Batch fetch scheduler (the batchSize = 10 loops in
`fetchValidators` and `fetchStakerValidatorData`) -/

/-- The batches formed by the loop `for (i = 0; i < n; i += batchSize)` with
`batchSize = 10`: each iteration takes `min(10, n - i)` items. -/
def toBatches : List α → List (List α)
  | [] => []
  | x :: xs => (x :: xs).take 10 :: toBatches ((x :: xs).drop 10)
termination_by l => l.length
decreasing_by simp; omega

/-- One batch run via `Promise.all` over fallible fetches: all results in input
order, or the failure of any member. -/
def mapE (f : α → Except ε β) : List α → Except ε (List β)
  | [] => .ok []
  | x :: xs => do
    let b ← f x
    let bs ← mapE f xs
    pure (b :: bs)

/-- The batch loop body: awaits each batch in turn and appends its results to
the accumulator (`allPools.push(...batchResults)`). -/
def runBatchesAux (f : α → Except ε β) : List (List α) → List β → Except ε (List β)
  | [], acc => .ok acc
  | b :: bs, acc => do
    let rs ← mapE f b
    runBatchesAux f bs (acc ++ rs)

/-- The whole batched fetch: strict sequencing between batches, full
concurrency within a batch, results concatenated batch by batch. -/
def runBatches (f : α → Except ε β) (xs : List α) : Except ε (List β) :=
  runBatchesAux f (toBatches xs) []

/-- Model of `fetchStakerValidatorData` abstracted over the per-pool remote read:
batch-fetch every staked pool, then run the grouping reduce. -/
def fetchStakerValidatorDataM {ε : Type} (poolKeys : List ValidatorPoolKey)
    (fetchPool : ValidatorPoolKey → Except ε StakerPoolData) :
    Except ε (List StakerValidatorData) := do
  let allPools ← runBatches fetchPool poolKeys
  pure (stakerValidatorData allPools)

/-- Model of `fetchValidators` abstracted over the per-id read: validator ids
`1 .. numValidators` fetched in batches of 10. -/
def fetchValidatorsM {ε V : Type} (numValidators : ℕ) (fetchOne : ℕ → Except ε V) :
    Except ε (List V) :=
  runBatches fetchOne ((List.range numValidators).map (· + 1))

/-! ### Two-phase simulate and execute skeletons

Each state-mutating operation first awaits its simulation; a rejected
simulation propagates out of the surrounding `await` (re-thrown by the
`try/catch` blocks where present) and the real execution is never reached.
On success the fee is derived from `appBudgetAdded` and passed to the real
execution. -/

/-- The only field of the simulation response the fee computation reads. -/
structure SimulateResult where
  appBudgetAdded : ℕ
deriving DecidableEq, Repr

/-- Phase structure of `addValidator`. -/
def addValidatorOp {ε ρ : Type} (simulate : Except ε SimulateResult)
    (execute : ℕ → Except ε ρ) : Except ε ρ := do
  let s ← simulate
  execute (feeAddValidator s.appBudgetAdded)

/-- Phase structure of `addStake`. -/
def addStakeOp {ε ρ : Type} (simulate : Except ε SimulateResult)
    (execute : ℚ → Except ε ρ) : Except ε ρ := do
  let s ← simulate
  execute (feeAddStake s.appBudgetAdded)

/-- Phase structure of `removeStake`. -/
def removeStakeOp {ε ρ : Type} (simulate : Except ε SimulateResult)
    (execute : ℕ → Except ε ρ) : Except ε ρ := do
  let s ← simulate
  execute (feeRemoveStake s.appBudgetAdded)

/-- Phase structure of `epochBalanceUpdate`. -/
def epochBalanceUpdateOp {ε ρ : Type} (simulate : Except ε SimulateResult)
    (execute : ℚ → Except ε ρ) : Except ε ρ := do
  let s ← simulate
  execute (feeEpochBalanceUpdate s.appBudgetAdded)

/-- Phase structure of `claimTokens`. -/
def claimTokensOp {ε ρ : Type} (simulate : Except ε SimulateResult)
    (execute : ℕ → Except ε ρ) : Except ε ρ := do
  let s ← simulate
  execute (feeClaimTokens s.appBudgetAdded)

/-! ### Transaction group construction (phase 1 versus phase 2) -/

/-- Whether a transaction carries the neutral empty signer used for
simulation or the real wallet signer. -/
inductive Signer where
  | empty
  | real
deriving DecidableEq, Repr

/-- A payment transaction as built by
`makePaymentTxnWithSuggestedParamsFromObject`, with its group linkage field. -/
structure PaymentTxn where
  sender : String
  receiver : String
  amount : ℕ
  group : Option ℕ
  signer : Signer
deriving DecidableEq, Repr

/-- The validator config tuple passed to the `addValidator` call. -/
structure ValidatorConfig where
  id : ℕ
  owner : String
  manager : String
  nfdForInfo : ℕ
  entryGatingType : ℕ
  entryGatingValue : List ℕ
  gatingAssetMinBalance : ℕ
  rewardTokenId : ℕ
  rewardPerPayout : ℕ
  payoutEveryXMins : ℕ
  percentToValidator : ℚ
  validatorCommissionAddress : String
  minEntryStake : ℕ
  maxAlgoPerPool : ℕ
  poolsPerNode : ℕ
  sunsettingOn : ℕ
  sunsettingTo : ℕ
deriving DecidableEq, Repr

/-- The method arguments of the application calls appearing in the groups. -/
inductive CallArgs where
  | addValidatorArgs (nfdName : String) (config : ValidatorConfig)
  | addStakeArgs (validatorId : ℕ) (valueToVerify : ℕ)
  | removeStakeArgs (amountToUnstake : ℕ)
  | epochBalanceUpdateArgs
  | claimTokensArgs
  | gasArgs
deriving DecidableEq, Repr

/-- An application call inside a group. -/
structure AppCallTxn where
  appId : ℕ
  method : String
  args : CallArgs
  note : Option String
  sender : String
  signer : Signer
  fee : ℚ
deriving DecidableEq, Repr

/-- One member of an atomic transaction group. -/
inductive GroupTxn where
  | pay (p : PaymentTxn)
  | appCall (c : AppCallTxn)
deriving DecidableEq, Repr

/-- The fee attached by the SDK when a call passes no explicit fee
(the suggested minimum fee). -/
def defaultFee : ℚ := 1000

/-- Helper constructor for an application call group member. -/
def mkAppCall (appId : ℕ) (method : String) (callArgs : CallArgs)
    (noteStr : Option String) (sender : String) (sig : Signer) (fee : ℚ) : GroupTxn :=
  GroupTxn.appCall
    { appId := appId, method := method, args := callArgs, note := noteStr,
      sender := sender, signer := sig, fee := fee }

/-- The two groups built by `addValidator`: the simulated group (phase 1,
composing assigns `groupId` to the payment) and, after
`payValidatorMbr.group = undefined`, the re-built executed group (phase 2). -/
def addValidatorTwoPhase (retiAppId : ℕ) (appAddress activeAddress : String)
    (validatorMbr : ℕ) (nfdName : String) (config : ValidatorConfig)
    (groupId : ℕ) (fee2 : ℚ) : List GroupTxn × List GroupTxn :=
  let payValidatorMbr : PaymentTxn :=
    { sender := activeAddress, receiver := appAddress, amount := validatorMbr,
      group := none, signer := .empty }
  let group1 :=
    [GroupTxn.pay { payValidatorMbr with group := some groupId },
     mkAppCall retiAppId "addValidator" (.addValidatorArgs nfdName config) none
       activeAddress .empty 240000]
  let group2 :=
    [GroupTxn.pay { payValidatorMbr with group := none, signer := .real },
     mkAppCall retiAppId "addValidator" (.addValidatorArgs nfdName config) none
       activeAddress .real fee2]
  (group1, group2)

/-- The two groups built by `addStake`: gas call, stake transfer payment
(grouped during phase 1, linkage cleared for phase 2) and the `addStake`
call. -/
def addStakeTwoPhase (retiAppId : ℕ) (appAddress activeAddress : String)
    (stakeAmount validatorId valueToVerify : ℕ)
    (groupId : ℕ) (fee2 : ℚ) : List GroupTxn × List GroupTxn :=
  let stakeTransferPayment : PaymentTxn :=
    { sender := activeAddress, receiver := appAddress, amount := stakeAmount,
      group := none, signer := .empty }
  let group1 :=
    [mkAppCall retiAppId "gas" .gasArgs none activeAddress .empty defaultFee,
     GroupTxn.pay { stakeTransferPayment with group := some groupId },
     mkAppCall retiAppId "addStake" (.addStakeArgs validatorId valueToVerify) none
       activeAddress .empty 240000]
  let group2 :=
    [mkAppCall retiAppId "gas" .gasArgs none activeAddress .real defaultFee,
     GroupTxn.pay { stakeTransferPayment with group := none, signer := .real },
     mkAppCall retiAppId "addStake" (.addStakeArgs validatorId valueToVerify) none
       activeAddress .real fee2]
  (group1, group2)

/-- The two groups built by `removeStake`: two zero-fee gas calls and the
`removeStake` call against the pool contract. -/
def removeStakeTwoPhase (poolAppId : ℕ) (activeAddress : String)
    (amountToUnstake : ℕ) (fee2 : ℚ) : List GroupTxn × List GroupTxn :=
  let group1 :=
    [mkAppCall poolAppId "gas" .gasArgs (some "1") activeAddress .empty 0,
     mkAppCall poolAppId "gas" .gasArgs (some "2") activeAddress .empty 0,
     mkAppCall poolAppId "removeStake" (.removeStakeArgs amountToUnstake) none
       activeAddress .empty 240000]
  let group2 :=
    [mkAppCall poolAppId "gas" .gasArgs (some "1") activeAddress .real 0,
     mkAppCall poolAppId "gas" .gasArgs (some "2") activeAddress .real 0,
     mkAppCall poolAppId "removeStake" (.removeStakeArgs amountToUnstake) none
       activeAddress .real fee2]
  (group1, group2)

/-- The two groups built by `epochBalanceUpdate`: phase 1 gas calls carry the
default fee, phase 2 gas calls carry an explicit zero fee. -/
def epochBalanceUpdateTwoPhase (poolAppId : ℕ) (activeAddress : String)
    (fee2 : ℚ) : List GroupTxn × List GroupTxn :=
  let group1 :=
    [mkAppCall poolAppId "gas" .gasArgs (some "1") activeAddress .empty defaultFee,
     mkAppCall poolAppId "gas" .gasArgs (some "2") activeAddress .empty defaultFee,
     mkAppCall poolAppId "epochBalanceUpdate" .epochBalanceUpdateArgs none
       activeAddress .empty 240000]
  let group2 :=
    [mkAppCall poolAppId "gas" .gasArgs (some "1") activeAddress .real 0,
     mkAppCall poolAppId "gas" .gasArgs (some "2") activeAddress .real 0,
     mkAppCall poolAppId "epochBalanceUpdate" .epochBalanceUpdateArgs none
       activeAddress .real fee2]
  (group1, group2)

/-- The per-pool loop of `claimTokens`: two zero-fee gas calls and the
`claimTokens` call, repeated for every pool app id. -/
def claimTokensGroup (activeAddress : String) (sig : Signer) (fee : ℚ) :
    List ℕ → List GroupTxn
  | [] => []
  | poolAppId :: rest =>
      mkAppCall poolAppId "gas" .gasArgs (some "1") activeAddress sig 0 ::
      mkAppCall poolAppId "gas" .gasArgs (some "2") activeAddress sig 0 ::
      mkAppCall poolAppId "claimTokens" .claimTokensArgs none activeAddress sig fee ::
      claimTokensGroup activeAddress sig fee rest

/-- The two groups built by `claimTokens` over the same pool list. -/
def claimTokensTwoPhase (activeAddress : String) (poolAppIds : List ℕ)
    (fee2 : ℚ) : List GroupTxn × List GroupTxn :=
  (claimTokensGroup activeAddress .empty 240000 poolAppIds,
   claimTokensGroup activeAddress .real fee2 poolAppIds)

/-- Erases exactly the fields the two-phase protocol may change: the signer,
the fee, and the group linkage of payments. -/
def stripVariable : GroupTxn → GroupTxn
  | .pay p => .pay { p with group := none, signer := .empty }
  | .appCall c => .appCall { c with signer := .empty, fee := 0 }

/-- Whether a group member that is a payment has its group linkage cleared. -/
def groupLinkCleared : GroupTxn → Bool
  | .pay p => p.group == none
  | .appCall _ => true

/-! ### Gating value codec (`addValidator`, ui/src/api/contracts.ts) -/

/-- Fixed-width big-endian byte string of a natural number. -/
def bigEndianBytes (w value : ℕ) : List ℕ :=
  (List.range w).map (fun i => value / 256 ^ (w - 1 - i) % 256)

/-- Modelled from the spec: `gatingValueFromBigint` (ui/src/utils/bytes.ts, a
file of this repository not present under src/) encodes a numeric id or amount
as a fixed-width big-endian byte string; the gating value field is 32 bytes
wide. -/
def gatingValueFromBigint (value : ℕ) : List ℕ :=
  bigEndianBytes 32 value

/-- Big-endian decoding, the inverse direction of the codec. -/
def decodeBigEndian (bytes : List ℕ) : ℕ :=
  bytes.foldl (fun acc b => acc * 256 + b) 0

/-- The encoding ternary in `addValidator`: gating type 1 takes
`decodeAddress(value).publicKey`, every other type takes
`gatingValueFromBigint(BigInt(value))`.  The SDK address decoder and the
BigInt parse are external and passed as parameters. -/
def entryGatingValueBytes (decodeAddressPublicKey : String → List ℕ)
    (parseBigInt : String → ℕ) (entryGatingType : ℕ) (value : String) : List ℕ :=
  if entryGatingType = 1 then decodeAddressPublicKey value
  else gatingValueFromBigint (parseBigInt value)

end Reti

namespace Reti

/-! ### Helper lemmas about folded minima -/

theorem foldl_min_le_init (ts : List ℕ) (a : ℕ) : ts.foldl min a ≤ a := by
  induction ts generalizing a with
  | nil => simp
  | cons t ts ih => exact le_trans (ih (min a t)) (min_le_left a t)

theorem foldl_min_le_mem (ts : List ℕ) (a : ℕ) : ∀ t ∈ ts, ts.foldl min a ≤ t := by
  induction ts generalizing a with
  | nil => simp
  | cons u ts ih =>
    intro t ht
    rcases List.mem_cons.mp ht with h | h
    · subst h
      exact le_trans (foldl_min_le_init ts (min a t)) (min_le_right a t)
    · exact ih (min a u) t h

theorem foldl_min_mem (ts : List ℕ) (a : ℕ) :
    ts.foldl min a = a ∨ ts.foldl min a ∈ ts := by
  induction ts generalizing a with
  | nil => simp
  | cons t ts ih =>
    rcases ih (min a t) with h | h
    · by_cases hat : a ≤ t
      · left
        simpa [min_eq_left hat] using h
      · right
        have hmin : min a t = t := min_eq_right (le_of_not_le hat)
        simp only [List.foldl_cons]
        rw [h, hmin]
        exact List.mem_cons_self t ts
    · right
      exact List.mem_cons_of_mem t h

theorem entryMin_mem (l : List StakerPoolData) (h : l ≠ []) :
    entryMin l ∈ l.map (·.entryTime) := by
  match l with
  | q :: qs =>
    rcases foldl_min_mem (qs.map (·.entryTime)) q.entryTime with h' | h' <;>
      simp [entryMin, h']

theorem entryMin_le (l : List StakerPoolData) :
    ∀ t ∈ l.map (·.entryTime), entryMin l ≤ t := by
  match l with
  | [] => simp
  | q :: qs =>
    intro t ht
    rcases List.mem_cons.mp ht with h | h
    · subst h
      exact foldl_min_le_init _ _
    · exact foldl_min_le_mem _ _ t h

theorem entryMin_append_singleton (l : List StakerPoolData) (p : StakerPoolData)
    (h : l ≠ []) : entryMin (l ++ [p]) = min (entryMin l) p.entryTime := by
  match l with
  | q :: qs => simp [entryMin, List.foldl_append]

/-! ### Properties of the grouping reduce -/

theorem accumulate_validatorId (d : StakerValidatorData) (p : StakerPoolData) :
    (accumulate d p).validatorId = d.validatorId := rfl

theorem seedAggregate_validatorId (p : StakerPoolData) :
    (seedAggregate p).validatorId = p.vid := rfl

theorem addPool_map_validatorId (A : List StakerValidatorData) (p : StakerPoolData) :
    (addPool A p).map (·.validatorId) =
      if p.vid ∈ A.map (·.validatorId) then A.map (·.validatorId)
      else A.map (·.validatorId) ++ [p.vid] := by
  induction A with
  | nil => simp [addPool, seedAggregate]
  | cons d rest ih =>
    by_cases hd : d.validatorId = p.vid
    · simp [addPool, hd, accumulate_validatorId]
    · have hne : p.vid ≠ d.validatorId := fun h => hd h.symm
      by_cases hm : p.vid ∈ rest.map (·.validatorId) <;>
        simp [addPool, hd, ih, hm, hne]

theorem mem_addPool {A : List StakerValidatorData} (p : StakerPoolData)
    (hnd : (A.map (·.validatorId)).Nodup) :
    ∀ d' ∈ addPool A p,
      (d' ∈ A ∧ d'.validatorId ≠ p.vid) ∨
      (∃ d ∈ A, d.validatorId = p.vid ∧ d' = accumulate d p) ∨
      (p.vid ∉ A.map (·.validatorId) ∧ d' = seedAggregate p) := by
  induction A with
  | nil =>
    intro d' hd'
    simp only [addPool, List.mem_singleton] at hd'
    right; right
    simp [hd']
  | cons d rest ih =>
    intro d' hd'
    have hndr : (rest.map (·.validatorId)).Nodup := (List.nodup_cons.mp hnd).2
    have hdnr : d.validatorId ∉ rest.map (·.validatorId) := (List.nodup_cons.mp hnd).1
    by_cases hd : d.validatorId = p.vid
    · rw [show addPool (d :: rest) p = accumulate d p :: rest by simp [addPool, hd]] at hd'
      rcases List.mem_cons.mp hd' with h | h
      · right; left
        exact ⟨d, List.mem_cons_self d rest, hd, h⟩
      · left
        refine ⟨List.mem_cons_of_mem d h, fun hv => ?_⟩
        exact hdnr (by
          rw [hd, ← hv]
          exact List.mem_map_of_mem (·.validatorId) h)
    · rw [show addPool (d :: rest) p = d :: addPool rest p by simp [addPool, hd]] at hd'
      rcases List.mem_cons.mp hd' with h | h
      · left
        exact ⟨h ▸ List.mem_cons_self d rest, h ▸ hd⟩
      · rcases ih hndr d' h with ⟨h1, h2⟩ | ⟨d₀, hd₀, hvid, heq⟩ | ⟨hnm, heq⟩
        · exact Or.inl ⟨List.mem_cons_of_mem d h1, h2⟩
        · exact Or.inr (Or.inl ⟨d₀, List.mem_cons_of_mem d hd₀, hvid, heq⟩)
        · refine Or.inr (Or.inr ⟨?_, heq⟩)
          simp only [List.map_cons, List.mem_cons]
          rintro (h' | h')
          · exact hd h'.symm
          · exact hnm h'

theorem represents_nil : Represents [] [] := by
  simp [Represents]

theorem represents_step {P : List StakerPoolData} {A : List StakerValidatorData}
    {p : StakerPoolData} (h : Represents P A) :
    Represents (P ++ [p]) (addPool A p) := by
  obtain ⟨hnd, hdat, hall⟩ := h
  refine ⟨?_, ?_, ?_⟩
  · rw [addPool_map_validatorId]
    split_ifs with hm
    · exact hnd
    · simp only [List.nodup_append, List.nodup_singleton, true_and]
      refine ⟨hnd, ?_⟩
      intro a ha
      simp only [List.mem_singleton]
      intro hav
      exact hm (hav ▸ ha)
  · intro d' hd'
    rcases mem_addPool p hnd d' hd' with ⟨hmem, hne⟩ | ⟨d, hdA, hvid, heq⟩ | ⟨hnm, heq⟩
    · obtain ⟨hpools, hne', hbal, hrew, htok, hent⟩ := hdat d' hmem
      refine ⟨?_, hne', hbal, hrew, htok, hent⟩
      have hf : (p.vid == d'.validatorId) = false := by
        rw [beq_eq_false_iff_ne]
        exact fun hh => hne hh.symm
      have hrw : (P ++ [p]).filter (fun q => q.vid == d'.validatorId)
          = P.filter (fun q => q.vid == d'.validatorId) := by
        simp [List.filter_append, hf]
      rw [hrw]
      exact hpools
    · obtain ⟨hpools, hne', hbal, hrew, htok, hent⟩ := hdat d hdA
      subst heq
      have hf : (p.vid == d.validatorId) = true := by
        rw [beq_iff_eq]
        exact hvid.symm
      refine ⟨?_, ?_, ?_, ?_, ?_, ?_⟩
      · show d.pools ++ [p] = (P ++ [p]).filter (fun q => q.vid == d.validatorId)
        simp [List.filter_append, hf, ← hpools]
      · show d.pools ++ [p] ≠ []
        simp
      · show d.balance + p.balance = ((d.pools ++ [p]).map (·.balance)).sum
        simp [hbal]
      · show d.totalRewarded + p.totalRewarded = ((d.pools ++ [p]).map (·.totalRewarded)).sum
        simp [hrew]
      · show d.rewardTokenBalance + p.rewardTokenBalance
            = ((d.pools ++ [p]).map (·.rewardTokenBalance)).sum
        simp [htok]
      · show min d.entryTime p.entryTime = entryMin (d.pools ++ [p])
        rw [entryMin_append_singleton d.pools p hne', hent]
    · subst heq
      have hfilter : P.filter (fun q => q.vid == (seedAggregate p).validatorId) = [] := by
        rw [List.filter_eq_nil_iff]
        intro q hq
        rw [seedAggregate_validatorId, beq_iff_eq]
        intro hv
        exact hnm (hv ▸ hall q hq)
      refine ⟨?_, ?_, ?_, ?_, ?_, ?_⟩
      · rw [List.filter_append, hfilter, List.filter_cons]
        simp [seedAggregate]
      · simp [seedAggregate]
      · simp [seedAggregate]
      · simp [seedAggregate]
      · simp [seedAggregate]
      · simp [seedAggregate, entryMin]
  · intro q hq
    rw [addPool_map_validatorId]
    rcases List.mem_append.mp hq with h | h
    · have hqA := hall q h
      split_ifs with hm
      · exact hqA
      · exact List.mem_append_left _ hqA
    · have hqp : q = p := List.mem_singleton.mp h
      subst hqp
      split_ifs with hm
      · exact hm
      · exact List.mem_append_right _ (List.mem_singleton_self _)

theorem stakerValidatorData_represents (l : List StakerPoolData) :
    Represents l (stakerValidatorData l) := by
  induction l using List.reverseRecOn with
  | nil => exact represents_nil
  | append_singleton l p ih =>
    have hfold : stakerValidatorData (l ++ [p]) = addPool (stakerValidatorData l) p := by
      simp [stakerValidatorData]
    rw [hfold]
    exact represents_step ih

/-! ### C1 theorems -/

/-- Claim C1 counterexample. The claim says every phase-2 fee is
`ceil(appBudgetAdded / 700) * 1000` plus a flat surcharge (+3000 for
`epochBalanceUpdate`).  At `appBudgetAdded = 350` that prescribes
`1000 * 1 + 3000 = 4000`, but the source computes
`3000 + 1000 * (350 / 700) = 3500` with unrounded division; moreover 350 and
700 fall in the same ceiling bucket yet get different fees, so no flat
surcharge whatsoever can repair the claimed form. -/
theorem C1_fee_counterexample :
    feeEpochBalanceUpdate 350 = 3500 ∧
    1000 * ((350 + 699) / 700) + 3000 = 4000 ∧
    feeEpochBalanceUpdate 350 ≠ ((1000 * ((350 + 699) / 700) + 3000 : ℕ) : ℚ) ∧
    (350 + 699) / 700 = (700 + 699) / 700 ∧
    feeEpochBalanceUpdate 350 ≠ feeEpochBalanceUpdate 700 := by
  refine ⟨?_, by norm_num, ?_, by norm_num, ?_⟩ <;>
    norm_num [feeEpochBalanceUpdate]

/-- Claim C1 (amended). `addValidator`, `removeStake` and `claimTokens` attach
exactly `ceil(appBudgetAdded / 700) * 1000` with no additive surcharge, while
`addStake` attaches `2000 + 1000 * appBudgetAdded / 700` and
`epochBalanceUpdate` attaches `3000 + 1000 * appBudgetAdded / 700`, both with
the quotient taken exactly (unrounded) rather than rounded up. -/
theorem C1_fee_formulas (x : ℕ) :
    feeAddValidator x = 1000 * (x ⌈/⌉ 700) ∧
    feeRemoveStake x = 1000 * (x ⌈/⌉ 700) ∧
    feeClaimTokens x = 1000 * (x ⌈/⌉ 700) ∧
    feeAddStake x = 2000 + 1000 * ((x : ℚ) / 700) ∧
    feeEpochBalanceUpdate x = 3000 + 1000 * ((x : ℚ) / 700) := by
  have h : x ⌈/⌉ 700 = (x + 699) / 700 := Nat.ceilDiv_eq_add_pred_div x 700
  refine ⟨?_, ?_, ?_, rfl, rfl⟩ <;>
    simp [feeAddValidator, feeRemoveStake, feeClaimTokens, h]

/-! ### C2 theorems -/

/-- Claim C2. Every aggregate produced by the grouping reduce of
`fetchStakerValidatorData` has balance, totalRewarded and rewardTokenBalance
equal to the sums of the corresponding fields of its constituent pools, its
entryTime is the minimum entryTime among its constituent pools, and the output
has exactly one aggregate per distinct validatorId occurring in the input. -/
theorem C2_aggregation_invariants (l : List StakerPoolData) :
    (∀ d ∈ stakerValidatorData l,
        d.balance = (d.pools.map (·.balance)).sum ∧
        d.totalRewarded = (d.pools.map (·.totalRewarded)).sum ∧
        d.rewardTokenBalance = (d.pools.map (·.rewardTokenBalance)).sum ∧
        d.entryTime ∈ d.pools.map (·.entryTime) ∧
        (∀ t ∈ d.pools.map (·.entryTime), d.entryTime ≤ t)) ∧
    ((stakerValidatorData l).map (·.validatorId)).Nodup ∧
    (∀ v, v ∈ (stakerValidatorData l).map (·.validatorId) ↔
          v ∈ l.map (fun p => p.poolKey.validatorId)) := by
  obtain ⟨hnd, hdat, hall⟩ := stakerValidatorData_represents l
  refine ⟨?_, hnd, ?_⟩
  · intro d hd
    obtain ⟨hpools, hne', hbal, hrew, htok, hent⟩ := hdat d hd
    refine ⟨hbal, hrew, htok, ?_, ?_⟩
    · rw [hent]
      exact entryMin_mem d.pools hne'
    · intro t ht
      rw [hent]
      exact entryMin_le d.pools t ht
  · intro v
    constructor
    · intro hv
      obtain ⟨d, hd, hveq⟩ := List.mem_map.mp hv
      obtain ⟨hpools, hne', _, _, _, _⟩ := hdat d hd
      obtain ⟨q, hq⟩ := List.exists_mem_of_ne_nil d.pools hne'
      have hql : q ∈ l.filter (fun r => r.vid == d.validatorId) := hpools ▸ hq
      have hmem := (List.mem_filter.mp hql).1
      have hqv : q.vid = d.validatorId := beq_iff_eq.mp (List.mem_filter.mp hql).2
      refine List.mem_map.mpr ⟨q, hmem, ?_⟩
      rw [show q.poolKey.validatorId = q.vid from rfl, hqv, hveq]
    · intro hv
      obtain ⟨q, hq, hveq⟩ := List.mem_map.mp hv
      have hm := hall q hq
      rwa [show q.vid = q.poolKey.validatorId from rfl, hveq] at hm

/-- Claim C2 witness. The conjuncts of the aggregation invariant evaluated on the
concrete two-pool input of validator 7 (balances 100 and 50, entry times 1000
and 2000). -/
theorem C2_aggregation_witness :
    exampleAggregate ∈ stakerValidatorData [examplePoolA, examplePoolB] ∧
    exampleAggregate.balance = (exampleAggregate.pools.map (·.balance)).sum ∧
    exampleAggregate.entryTime ∈ exampleAggregate.pools.map (·.entryTime) := by
  have h := (C2_aggregation_invariants [examplePoolA, examplePoolB]).1
    exampleAggregate (by decide)
  exact ⟨by decide, h.1, h.2.2.2.1⟩

/-! ### C7 theorems -/

theorem entryMin_perm {l l' : List StakerPoolData} (h : l.Perm l') (hne : l ≠ []) :
    entryMin l = entryMin l' := by
  have hne' : l' ≠ [] := fun hh => hne (List.Perm.eq_nil (hh ▸ h))
  apply le_antisymm
  · have hm := entryMin_mem l' hne'
    have hm' : entryMin l' ∈ l.map (·.entryTime) :=
      ((h.map (·.entryTime)).mem_iff).mpr hm
    exact entryMin_le l _ hm'
  · have hm := entryMin_mem l hne
    have hm' : entryMin l ∈ l'.map (·.entryTime) :=
      ((h.map (·.entryTime)).mem_iff).mp hm
    exact entryMin_le l' _ hm'

/-- Claim C7. For permuted inputs, the aggregates produced for a common
validatorId agree on balance, totalRewarded, rewardTokenBalance and entryTime,
while each aggregate keeps its constituent pools in the order of occurrence of
its own input (the filter of the input by its validatorId). -/
theorem C7_permutation_invariance {l₁ l₂ : List StakerPoolData} (hperm : l₁.Perm l₂)
    {v : ℕ} {d₁ d₂ : StakerValidatorData}
    (h₁ : d₁ ∈ stakerValidatorData l₁) (h₂ : d₂ ∈ stakerValidatorData l₂)
    (hv₁ : d₁.validatorId = v) (hv₂ : d₂.validatorId = v) :
    d₁.pools = l₁.filter (fun q => q.vid == v) ∧
    d₂.pools = l₂.filter (fun q => q.vid == v) ∧
    d₁.balance = d₂.balance ∧
    d₁.totalRewarded = d₂.totalRewarded ∧
    d₁.rewardTokenBalance = d₂.rewardTokenBalance ∧
    d₁.entryTime = d₂.entryTime := by
  obtain ⟨_, hdat₁, _⟩ := stakerValidatorData_represents l₁
  obtain ⟨_, hdat₂, _⟩ := stakerValidatorData_represents l₂
  obtain ⟨hp₁, hne₁, hb₁, hr₁, ht₁, he₁⟩ := hdat₁ d₁ h₁
  obtain ⟨hp₂, hne₂, hb₂, hr₂, ht₂, he₂⟩ := hdat₂ d₂ h₂
  rw [hv₁] at hp₁
  rw [hv₂] at hp₂
  have hpp : d₁.pools.Perm d₂.pools := by
    rw [hp₁, hp₂]
    exact hperm.filter _
  refine ⟨hp₁, hp₂, ?_, ?_, ?_, ?_⟩
  · rw [hb₁, hb₂]
    exact (hpp.map (·.balance)).sum_eq
  · rw [hr₁, hr₂]
    exact (hpp.map (·.totalRewarded)).sum_eq
  · rw [ht₁, ht₂]
    exact (hpp.map (·.rewardTokenBalance)).sum_eq
  · rw [he₁, he₂]
    exact entryMin_perm hpp hne₁

/-- Claim C7 witness. The permutation invariance evaluated on the concrete
two-pool input of validator 7 and its reversal. -/
theorem C7_permutation_witness :
    exampleAggregate.balance = exampleAggregateRev.balance ∧
    exampleAggregate.entryTime = exampleAggregateRev.entryTime ∧
    exampleAggregateRev.pools
      = [examplePoolB, examplePoolA].filter (fun q => q.vid == 7) := by
  have h := @C7_permutation_invariance
    [examplePoolA, examplePoolB] [examplePoolB, examplePoolA]
    (by decide) 7 exampleAggregate exampleAggregateRev
    (by decide) (by decide) (by decide) (by decide)
  exact ⟨h.2.2.1, h.2.2.2.2.2, h.2.1⟩

/-! ### C3 theorems -/

/-- Claim C3. When any of the five constituent reads resolves empty,
`fetchValidator` throws `ValidatorNotFoundError`; and whenever it returns a
Validator, every sub-field comes from a non-empty read, so no
partially-populated object is ever produced. -/
theorem C3_fetchValidator_not_found {C S P R N : Type} (validatorId : ℕ)
    (reads : ValidatorReads C S P R N) :
    ((reads.config = none ∨ reads.state = none ∨ reads.poolsInfo = none ∨
        reads.tokenPayoutRatios = none ∨ reads.nodePoolAssignment = none) →
      fetchValidator validatorId reads = .error (.validatorNotFound validatorId)) ∧
    (∀ v, fetchValidator validatorId reads = .ok v →
      reads.config = some v.config ∧ reads.state = some v.state ∧
      reads.poolsInfo = some v.poolsInfo ∧
      reads.tokenPayoutRatios = some v.tokenPayoutRatios ∧
      reads.nodePoolAssignment = some v.nodePoolAssignment) := by
  obtain ⟨oc, os, op, ot, on2⟩ := reads
  constructor
  · intro h
    rcases oc with _ | c <;> rcases os with _ | s <;> rcases op with _ | p <;>
      rcases ot with _ | r <;> rcases on2 with _ | n <;>
      simp_all [fetchValidator]
  · intro v hv
    rcases oc with _ | c <;> rcases os with _ | s <;> rcases op with _ | p <;>
      rcases ot with _ | r <;> rcases on2 with _ | n <;>
      simp_all [fetchValidator, transformValidatorData]
    simp [← hv]

/-- Claim C3 witness. A concrete instance with the config read empty. -/
theorem C3_fetchValidator_witness :
    fetchValidator 5 (⟨none, some 0, some 0, some 0, some 0⟩ : ValidatorReads ℕ ℕ ℕ ℕ ℕ)
      = .error (.validatorNotFound 5) :=
  (C3_fetchValidator_not_found 5 ⟨none, some 0, some 0, some 0, some 0⟩).1 (Or.inl rfl)

/-! ### C5 theorems -/

/-- Claim C5. When the phase-1 simulation fails with an error, every two-phase
operation returns exactly that error, for every possible phase-2 execution
function: the real execution is never issued and no fee is computed from the
rejected simulation. -/
theorem C5_simulation_failure_aborts {ε ρ : Type} (e : ε)
    (exAddValidator exRemoveStake exClaimTokens : ℕ → Except ε ρ)
    (exAddStake exEpoch : ℚ → Except ε ρ) :
    addValidatorOp (.error e) exAddValidator = .error e ∧
    addStakeOp (.error e) exAddStake = .error e ∧
    removeStakeOp (.error e) exRemoveStake = .error e ∧
    epochBalanceUpdateOp (.error e) exEpoch = .error e ∧
    claimTokensOp (.error e) exClaimTokens = .error e :=
  ⟨rfl, rfl, rfl, rfl, rfl⟩

/-! ### Batch scheduler lemmas -/

theorem exbind_ok {ε α β : Type} (a : α) (k : α → Except ε β) :
    (Except.ok a >>= k) = k a := rfl

theorem exbind_error {ε α β : Type} (e : ε) (k : α → Except ε β) :
    ((Except.error e : Except ε α) >>= k) = .error e := rfl

theorem expure {ε α : Type} (a : α) : (pure a : Except ε α) = .ok a := rfl

theorem mapE_append {ε α β : Type} (f : α → Except ε β) (l₁ l₂ : List α) :
    mapE f (l₁ ++ l₂)
      = (mapE f l₁ >>= fun a => mapE f l₂ >>= fun b => pure (a ++ b)) := by
  induction l₁ with
  | nil =>
    cases h : mapE f l₂ <;> simp [mapE, h, exbind_ok, exbind_error, expure]
  | cons x l₁ ih =>
    cases hfx : f x <;> cases h1 : mapE f l₁ <;> cases h2 : mapE f l₂ <;>
      simp_all [mapE, exbind_ok, exbind_error, expure]

theorem toBatches_join_aux {α : Type} (n : ℕ) :
    ∀ xs : List α, xs.length ≤ n → (toBatches xs).flatten = xs := by
  induction n with
  | zero =>
    intro xs h
    have hx : xs = [] := List.eq_nil_of_length_eq_zero (Nat.le_zero.mp h)
    subst hx
    simp [toBatches]
  | succ n ih =>
    intro xs h
    match xs with
    | [] => simp [toBatches]
    | x :: t =>
      have hrec := ih ((x :: t).drop 10) (by simp at h ⊢; omega)
      simp only [toBatches, List.flatten_cons, hrec]
      exact List.take_append_drop 10 (x :: t)

theorem toBatches_join {α : Type} (xs : List α) : (toBatches xs).flatten = xs :=
  toBatches_join_aux xs.length xs le_rfl

theorem toBatches_map_length_aux {α : Type} (n : ℕ) :
    ∀ xs : List α, xs.length ≤ n →
      (toBatches xs).map List.length
        = List.replicate (xs.length / 10) 10
          ++ (if xs.length % 10 = 0 then [] else [xs.length % 10]) := by
  induction n with
  | zero =>
    intro xs h
    have hx : xs = [] := List.eq_nil_of_length_eq_zero (Nat.le_zero.mp h)
    subst hx
    simp [toBatches]
  | succ n ih =>
    intro xs h
    match xs with
    | [] => simp [toBatches]
    | x :: t =>
      have hrec := ih ((x :: t).drop 10) (by simp at h ⊢; omega)
      simp only [toBatches, List.map_cons, hrec, List.length_drop, List.length_take,
        List.length_cons]
      rcases le_or_lt (t.length + 1) 10 with hle | hlt
      · have h1 : min 10 (t.length + 1) = t.length + 1 := by omega
        have h2 : t.length + 1 - 10 = 0 := by omega
        rw [h1, h2]
        rcases Nat.lt_or_ge (t.length + 1) 10 with h10 | h10
        · have h3 : (t.length + 1) / 10 = 0 := by omega
          have h4 : (t.length + 1) % 10 = t.length + 1 := by omega
          have h5 : ¬((t.length + 1) % 10 = 0) := by omega
          simp [h3, h4, h5]
        · have h6 : t.length + 1 = 10 := by omega
          simp [h6]
      · have h1 : min 10 (t.length + 1) = 10 := by omega
        have h2 : (t.length + 1 - 10) / 10 = (t.length + 1) / 10 - 1 := by omega
        have h3 : (t.length + 1 - 10) % 10 = (t.length + 1) % 10 := by omega
        have h4 : (t.length + 1) / 10 = ((t.length + 1) / 10 - 1) + 1 := by omega
        rw [h1, h2, h3, h4, List.replicate_succ]
        simp

theorem toBatches_map_length {α : Type} (xs : List α) :
    (toBatches xs).map List.length
      = List.replicate (xs.length / 10) 10
        ++ (if xs.length % 10 = 0 then [] else [xs.length % 10]) :=
  toBatches_map_length_aux xs.length xs le_rfl

theorem toBatches_length {α : Type} (xs : List α) :
    (toBatches xs).length = (xs.length + 9) / 10 := by
  have h := congrArg List.length (toBatches_map_length xs)
  rw [List.length_map] at h
  rw [h]
  simp only [List.length_append, List.length_replicate]
  split_ifs with h0 <;> simp <;> omega

theorem runBatchesAux_eq {ε α β : Type} (f : α → Except ε β) (bs : List (List α))
    (acc : List β) :
    runBatchesAux f bs acc = (mapE f bs.flatten).map (acc ++ ·) := by
  induction bs generalizing acc with
  | nil =>
    simp [runBatchesAux, mapE, Except.map]
  | cons b bs ih =>
    rw [show (b :: bs).flatten = b ++ bs.flatten from rfl, mapE_append]
    cases h1 : mapE f b <;> cases h2 : mapE f bs.flatten <;>
      simp [runBatchesAux, h1, h2, ih, Except.map, exbind_ok, exbind_error, expure,
        List.append_assoc]

theorem runBatches_eq_mapE {ε α β : Type} (f : α → Except ε β) (xs : List α) :
    runBatches f xs = mapE f xs := by
  rw [runBatches, runBatchesAux_eq, toBatches_join]
  cases h : mapE f xs <;> simp [Except.map, h]

theorem mapE_pure {ε α β : Type} (f : α → β) (xs : List α) :
    mapE (fun a => (.ok (f a) : Except ε β)) xs = .ok (xs.map f) := by
  induction xs with
  | nil => rfl
  | cons x xs ih => simp [mapE, ih, exbind_ok, expure]

theorem mapE_ok_mem {ε α β : Type} {f : α → Except ε β} {xs : List α} {l : List β}
    (h : mapE f xs = .ok l) : ∀ x ∈ xs, ∃ b, f x = .ok b := by
  induction xs generalizing l with
  | nil => simp
  | cons y ys ih =>
    intro x hx
    cases hfy : f y with
    | error e =>
      rw [show mapE f (y :: ys) = (f y >>= fun b => mapE f ys >>= fun bs => pure (b :: bs))
        from rfl, hfy, exbind_error] at h
      exact absurd h (by simp)
    | ok b =>
      rw [show mapE f (y :: ys) = (f y >>= fun b => mapE f ys >>= fun bs => pure (b :: bs))
        from rfl, hfy, exbind_ok] at h
      cases hm : mapE f ys with
      | error e =>
        rw [hm, exbind_error] at h
        exact absurd h (by simp)
      | ok bs =>
        rcases List.mem_cons.mp hx with rfl | hx'
        · exact ⟨b, hfy⟩
        · exact ih hm x hx'

theorem mapE_error_of_mem {ε α β : Type} {f : α → Except ε β} {xs : List α} {x : α}
    (hx : x ∈ xs) {e : ε} (hfx : f x = .error e) :
    ∃ e', mapE f xs = .error e' := by
  induction xs with
  | nil => cases hx
  | cons y ys ih =>
    rcases List.mem_cons.mp hx with rfl | hx'
    · exact ⟨e, by simp [mapE, hfx, exbind_error]⟩
    · cases hfy : f y with
      | error e2 => exact ⟨e2, by simp [mapE, hfy, exbind_error]⟩
      | ok b =>
        obtain ⟨e', he'⟩ := ih hx'
        exact ⟨e', by simp [mapE, hfy, exbind_ok, he', exbind_error]⟩

/-! ### C4 theorems -/

/-- Claim C4. The batch loop splits its N inputs into ceil(N/10) batches whose
sizes are 10 except for a final batch of N mod 10 when nonzero; the batches
partition the input in order, so the output of a fully successful run has
length N in input order; and 23 inputs give exactly 3 batches. -/
theorem C4_batch_scheduler {ε α β : Type} (xs : List α) (f : α → β) :
    (toBatches xs).map List.length
      = List.replicate (xs.length / 10) 10
        ++ (if xs.length % 10 = 0 then [] else [xs.length % 10]) ∧
    (toBatches xs).length = (xs.length + 9) / 10 ∧
    (toBatches xs).flatten = xs ∧
    runBatches (fun a => (.ok (f a) : Except ε β)) xs = .ok (xs.map f) ∧
    (toBatches (List.range 23)).length = 3 := by
  refine ⟨toBatches_map_length xs, toBatches_length xs, toBatches_join xs, ?_, ?_⟩
  · rw [runBatches_eq_mapE]
    exact mapE_pure f xs
  · rw [toBatches_length]
    simp

/-! ### C6 theorems -/

/-- Claim C6. If any single fetch inside the batched loops of
`fetchStakerValidatorData` or `fetchValidators` fails, the whole aggregate
operation returns an error; and whenever a list is returned, every constituent
fetch succeeded, so no partial list is ever produced. -/
theorem C6_fail_fast {ε V : Type} (poolKeys : List ValidatorPoolKey)
    (fetchPool : ValidatorPoolKey → Except ε StakerPoolData)
    (numValidators : ℕ) (fetchOne : ℕ → Except ε V) :
    (∀ k ∈ poolKeys, ∀ e, fetchPool k = .error e →
        ∃ e', fetchStakerValidatorDataM poolKeys fetchPool = .error e') ∧
    (∀ l, fetchStakerValidatorDataM poolKeys fetchPool = .ok l →
        ∀ k ∈ poolKeys, ∃ b, fetchPool k = .ok b) ∧
    (∀ i ∈ (List.range numValidators).map (· + 1), ∀ e, fetchOne i = .error e →
        ∃ e', fetchValidatorsM numValidators fetchOne = .error e') ∧
    (∀ l, fetchValidatorsM numValidators fetchOne = .ok l →
        ∀ i ∈ (List.range numValidators).map (· + 1), ∃ b, fetchOne i = .ok b) := by
  refine ⟨?_, ?_, ?_, ?_⟩
  · intro k hk e he
    obtain ⟨e', he'⟩ := mapE_error_of_mem hk he
    refine ⟨e', ?_⟩
    simp [fetchStakerValidatorDataM, runBatches_eq_mapE, he', exbind_error]
  · intro l hl k hk
    simp only [fetchStakerValidatorDataM, runBatches_eq_mapE] at hl
    cases hm : mapE fetchPool poolKeys with
    | error e =>
      rw [hm, exbind_error] at hl
      exact absurd hl (by simp)
    | ok pools => exact mapE_ok_mem hm k hk
  · intro i hi e he
    obtain ⟨e', he'⟩ := mapE_error_of_mem hi he
    refine ⟨e', ?_⟩
    simp [fetchValidatorsM, runBatches_eq_mapE, he']
  · intro l hl i hi
    simp only [fetchValidatorsM, runBatches_eq_mapE] at hl
    exact mapE_ok_mem hl i hi

/-- Claim C6 witness. A single failing pool fetch makes the whole
`fetchStakerValidatorData` aggregation fail. -/
theorem C6_fail_fast_witness :
    ∃ e', fetchStakerValidatorDataM [⟨7, 1, 1011⟩]
        (fun _ => (.error 0 : Except ℕ StakerPoolData)) = .error e' :=
  (C6_fail_fast [⟨7, 1, 1011⟩] (fun _ => .error 0) 0
    (fun _ => (.error 0 : Except ℕ ℕ))).1 ⟨7, 1, 1011⟩ (by simp) 0 rfl

/-! ### C8 theorems -/

theorem claimTokensGroup_strip (activeAddress : String) (fee1 fee2 : ℚ)
    (pids : List ℕ) :
    (claimTokensGroup activeAddress .real fee2 pids).map stripVariable
      = (claimTokensGroup activeAddress .empty fee1 pids).map stripVariable := by
  induction pids with
  | nil => rfl
  | cons pid rest ih =>
    simp [claimTokensGroup, stripVariable, mkAppCall, ih]

theorem claimTokensGroup_cleared (activeAddress : String) (sig : Signer) (fee : ℚ)
    (pids : List ℕ) :
    (claimTokensGroup activeAddress sig fee pids).all groupLinkCleared = true := by
  induction pids with
  | nil => rfl
  | cons pid rest ih =>
    simp [claimTokensGroup, groupLinkCleared, mkAppCall, ih]

/-- Claim C8. For every two-phase operation, erasing exactly the signer, the fee
and the payment group linkage makes the phase-2 group identical to the
phase-1 group (same calls, same arguments, same payment), and every payment in
the phase-2 group has its group linkage field cleared. -/
theorem C8_two_phase_group_equivalence (retiAppId poolAppId : ℕ)
    (appAddress activeAddress nfdName : String) (config : ValidatorConfig)
    (validatorMbr stakeAmount validatorId valueToVerify groupId amountToUnstake : ℕ)
    (fee2 : ℚ) (poolAppIds : List ℕ) :
    ((addValidatorTwoPhase retiAppId appAddress activeAddress validatorMbr nfdName
          config groupId fee2).2.map stripVariable
        = (addValidatorTwoPhase retiAppId appAddress activeAddress validatorMbr nfdName
          config groupId fee2).1.map stripVariable) ∧
    ((addValidatorTwoPhase retiAppId appAddress activeAddress validatorMbr nfdName
          config groupId fee2).2.all groupLinkCleared = true) ∧
    ((addStakeTwoPhase retiAppId appAddress activeAddress stakeAmount validatorId
          valueToVerify groupId fee2).2.map stripVariable
        = (addStakeTwoPhase retiAppId appAddress activeAddress stakeAmount validatorId
          valueToVerify groupId fee2).1.map stripVariable) ∧
    ((addStakeTwoPhase retiAppId appAddress activeAddress stakeAmount validatorId
          valueToVerify groupId fee2).2.all groupLinkCleared = true) ∧
    ((removeStakeTwoPhase poolAppId activeAddress amountToUnstake fee2).2.map
          stripVariable
        = (removeStakeTwoPhase poolAppId activeAddress amountToUnstake fee2).1.map
          stripVariable) ∧
    ((epochBalanceUpdateTwoPhase poolAppId activeAddress fee2).2.map stripVariable
        = (epochBalanceUpdateTwoPhase poolAppId activeAddress fee2).1.map
          stripVariable) ∧
    ((claimTokensTwoPhase activeAddress poolAppIds fee2).2.map stripVariable
        = (claimTokensTwoPhase activeAddress poolAppIds fee2).1.map stripVariable) ∧
    ((claimTokensTwoPhase activeAddress poolAppIds fee2).2.all groupLinkCleared
        = true) := by
  refine ⟨rfl, rfl, rfl, rfl, rfl, rfl, ?_, ?_⟩
  · exact claimTokensGroup_strip activeAddress 240000 fee2 poolAppIds
  · exact claimTokensGroup_cleared activeAddress .real fee2 poolAppIds

/-! ### C9 theorems -/

theorem bigEndianBytes_succ (w n : ℕ) :
    bigEndianBytes (w + 1) n = (n / 256 ^ w % 256) :: bigEndianBytes w n := by
  simp only [bigEndianBytes, List.range_succ_eq_map, List.map_cons, List.map_map,
    Nat.add_sub_cancel, Nat.sub_zero]
  congr 1
  apply List.map_congr_left
  intro i hi
  simp only [Function.comp_apply]
  have harith : w - i.succ = w - 1 - i := by omega
  rw [harith]

theorem foldl_bigEndianBytes (w : ℕ) (n : ℕ) :
    ∀ a : ℕ, (bigEndianBytes w n).foldl (fun acc b => acc * 256 + b) a
      = a * 256 ^ w + n % 256 ^ w := by
  induction w with
  | zero =>
    intro a
    simp [bigEndianBytes, Nat.mod_one]
  | succ w ih =>
    intro a
    rw [bigEndianBytes_succ]
    simp only [List.foldl_cons]
    rw [ih]
    have hmod : n % 256 ^ (w + 1) = n % 256 ^ w + 256 ^ w * (n / 256 ^ w % 256) := by
      rw [pow_succ]
      exact Nat.mod_mul
    rw [hmod, pow_succ]
    ring

theorem gatingValueFromBigint_length (n : ℕ) : (gatingValueFromBigint n).length = 32 := by
  simp [gatingValueFromBigint, bigEndianBytes]

theorem decode_gatingValueFromBigint (n : ℕ) (h : n < 256 ^ 32) :
    decodeBigEndian (gatingValueFromBigint n) = n := by
  rw [decodeBigEndian, gatingValueFromBigint, foldl_bigEndianBytes 32 n 0,
    zero_mul, zero_add, Nat.mod_eq_of_lt h]

/-- Claim C9. The gating value ternary in `addValidator` encodes type 1 as the
raw public key decoded from the supplied address string, and every other type
as the fixed-width (32-byte) big-endian byte string of the supplied numeric
value; the numeric encoding loses no information below 2^256. -/
theorem C9_gating_value_encoding (decodeAddressPublicKey : String → List ℕ)
    (parseBigInt : String → ℕ) (gatingType : ℕ) (value : String) :
    (gatingType = 1 →
      entryGatingValueBytes decodeAddressPublicKey parseBigInt gatingType value
        = decodeAddressPublicKey value) ∧
    (gatingType ≠ 1 →
      entryGatingValueBytes decodeAddressPublicKey parseBigInt gatingType value
          = gatingValueFromBigint (parseBigInt value) ∧
        (entryGatingValueBytes decodeAddressPublicKey parseBigInt gatingType
          value).length = 32 ∧
        (parseBigInt value < 256 ^ 32 →
          decodeBigEndian (entryGatingValueBytes decodeAddressPublicKey parseBigInt
              gatingType value)
            = parseBigInt value)) := by
  constructor
  · intro h1
    simp [entryGatingValueBytes, h1]
  · intro h1
    refine ⟨by simp [entryGatingValueBytes, h1], ?_, ?_⟩
    · simp [entryGatingValueBytes, h1, gatingValueFromBigint_length]
    · intro hb
      rw [entryGatingValueBytes, if_neg h1]
      exact decode_gatingValueFromBigint _ hb

/-- Claim C9 witness. Concrete encodings: gating type 2 with numeric value 5
round-trips through the 32-byte big-endian codec, and gating type 1 passes the
decoded address bytes through unchanged. -/
theorem C9_gating_value_witness :
    entryGatingValueBytes (fun _ => List.replicate 32 0) (fun _ => 5) 2 "5"
        = gatingValueFromBigint 5 ∧
    decodeBigEndian (gatingValueFromBigint 5) = 5 ∧
    entryGatingValueBytes (fun _ => List.replicate 32 0) (fun _ => 5) 1 "ADDR"
        = List.replicate 32 0 := by
  have h := C9_gating_value_encoding (fun _ => List.replicate 32 0) (fun _ => 5) 2 "5"
  have h1 := C9_gating_value_encoding (fun _ => List.replicate 32 0) (fun _ => 5) 1 "ADDR"
  have h2 := h.2 (by norm_num)
  have hlt : (5 : ℕ) < 256 ^ 32 :=
    lt_of_lt_of_le (by norm_num) (Nat.le_self_pow (by norm_num) 256)
  exact ⟨h2.1, h2.1 ▸ h2.2.2 hlt, h1.1 rfl⟩

end Reti
